import Mathlib

/-!
# Verification of `scripts/docstring.py`

Shallow embedding of the line-commenting script. Text is modelled as
`List Char` (the decoded character stream, with `'\n'` as the line
terminator after the host's universal-newline translation). The script:

1. reads an integer choice; `0` selects the marker `"///"`, anything else
   selects `"//!"` (a non-integer raises `ValueError` before any file I/O);
2. reads the target file with `f.readlines()` (lines keep their trailing
   `'\n'`; a final unterminated chunk forms a last line);
3. for each line: if `len(line) == 1` it appends `marker + line` to the
   output (no space); otherwise it prints the line and appends
   `marker + " " + line`;
4. rewrites the same file with `open(path, "w+")`, which truncates/creates
   and fully replaces the previous content.
-/

namespace Docstring

/-- Marker choice (docstring.py lines 8-11): `int(input(...)) == 0` selects
`"///"`, every other integer selects `"//!"`. -/
def selectMarker (n : Int) : List Char :=
  if n = 0 then ['/', '/', '/'] else ['/', '/', '!']

/-- Attach a character to the front of the first line of an already-split
tail, starting a fresh line when there is none. Helper for `splitLines`. -/
def consLine (c : Char) : List (List Char) → List (List Char)
  | [] => [[c]]
  | l :: ls => (c :: l) :: ls

/-- Python `f.readlines()`: split the text into lines, each keeping its
trailing `'\n'`; a final chunk without a terminator forms a last line of its
own; the empty text yields no lines. -/
def splitLines : List Char → List (List Char)
  | [] => []
  | c :: rest =>
    if c = '\n' then ['\n'] :: splitLines rest
    else consLine c (splitLines rest)

/-- The classifier on line 19 of the source: `len(line) == 1`. -/
def isEmptyLine (l : List Char) : Bool :=
  l.length = 1

/-- One loop iteration's contribution to `output` (lines 19-23):
`marker + line` when the raw length is exactly 1, else `marker + " " + line`. -/
def transformLine (marker l : List Char) : List Char :=
  if l.length = 1 then marker ++ l else marker ++ ' ' :: l

/-- The transform loop (lines 17-23): first component is the accumulated
`output` string, second component is the list of lines echoed by
`print(line)` — the print statement sits only in the `else` branch. -/
def processLines (marker : List Char) : List (List Char) → List Char × List (List Char)
  | [] => ([], [])
  | l :: ls =>
    if l.length = 1 then
      (marker ++ l ++ (processLines marker ls).1, (processLines marker ls).2)
    else
      (marker ++ ' ' :: l ++ (processLines marker ls).1, l :: (processLines marker ls).2)

/-- The final `output` blob written to the file. -/
def transformText (marker : List Char) (ls : List (List Char)) : List Char :=
  (processLines marker ls).1

/-- The lines echoed to the console during the loop, in order. -/
def echoedLines (marker : List Char) (ls : List (List Char)) : List (List Char) :=
  (processLines marker ls).2

/-- The file system visible to the script: the single file at `IN_OUT_PATH`,
`none` when it does not exist. -/
def readF (fs : Option (List Char)) : Option (List Char) :=
  fs

/-- `open(path, "w+").write(data)`: create-or-truncate semantics — the new
content is exactly `data`, regardless of the prior state of the file. -/
def writeF (_fs : Option (List Char)) (data : List Char) : Option (List Char) :=
  some data

/-- How a run can fail: `invalidChoice` models the `ValueError` raised by
`int(...)` on non-integer prompt text (line 8); `fileAccess` models the
`OSError` raised when the target file cannot be opened for reading. -/
inductive RunError
  | invalidChoice
  | fileAccess
  deriving DecidableEq

/-- The whole script as a state transformer on the file system. `choice` is
the marker-prompt text parsed by `int(...)`: `none` models non-integer text
(the parse happens before any file access). Returns the final file-system
state together with the run's outcome. -/
def run (choice : Option Int) (fs : Option (List Char)) :
    Option (List Char) × Except RunError Unit :=
  match choice with
  | none => (fs, .error .invalidChoice)
  | some n =>
    match readF fs with
    | none => (fs, .error .fileAccess)
    | some text =>
      (writeF fs (transformText (selectMarker n) (splitLines text)), .ok ())

/-- Greedy reading of "strip the marker and the optional single following
space": drop the marker, then drop one space whenever one is present. -/
def stripGreedy (marker t : List Char) : List Char :=
  let r := t.drop marker.length
  if r.head? = some ' ' then r.tail else r

/-- Length-aware strip: drop the marker, then drop the single following
space only when at least one character follows it (so that a final line
consisting of one space, which the script classified EMPTY, is preserved). -/
def stripLine (marker t : List Char) : List Char :=
  let r := t.drop marker.length
  if r.head? = some ' ' ∧ 2 ≤ r.length then r.tail else r

/-! ## Shape of a `readlines` result -/

/-- A terminated line: some newline-free body followed by `'\n'`. -/
def Terminated (l : List Char) : Prop :=
  ∃ m, '\n' ∉ m ∧ l = m ++ ['\n']

/-- Shape invariant of a `readlines` result: every line except the last is
terminated; the last is terminated or newline-free and nonempty. -/
def LineList : List (List Char) → Prop
  | [] => True
  | [l] => Terminated l ∨ ('\n' ∉ l ∧ l ≠ [])
  | l :: l2 :: ls => Terminated l ∧ LineList (l2 :: ls)

/-! ## Lemmas about `splitLines` -/

theorem consLine_flatten (c : Char) (ls : List (List Char)) :
    (consLine c ls).flatten = c :: ls.flatten := by
  cases ls <;> simp [consLine]

theorem flatten_splitLines (s : List Char) : (splitLines s).flatten = s := by
  induction s with
  | nil => rfl
  | cons c rest ih =>
    by_cases h : c = '\n'
    · subst h
      simp [splitLines, ih]
    · simp [splitLines, h, consLine_flatten, ih]

theorem splitLines_term_append (m rest : List Char) (hm : '\n' ∉ m) :
    splitLines (m ++ '\n' :: rest) = (m ++ ['\n']) :: splitLines rest := by
  induction m with
  | nil => simp [splitLines]
  | cons c m ih =>
    have hc : c ≠ '\n' := fun h => hm (h ▸ List.mem_cons_self c m)
    have hm2 : '\n' ∉ m := fun h => hm (List.mem_cons_of_mem c h)
    simp [splitLines, hc, ih hm2, consLine]

theorem splitLines_noNL : ∀ (l : List Char), '\n' ∉ l → l ≠ [] → splitLines l = [l]
  | [], _, hne => absurd rfl hne
  | [c], h, _ => by
    have hc : c ≠ '\n' := fun hcc => h (hcc ▸ List.mem_cons_self c [])
    simp [splitLines, hc, consLine]
  | c :: d :: tail, h, _ => by
    have hc : c ≠ '\n' := fun hcc => h (hcc ▸ List.mem_cons_self c (d :: tail))
    have h2 : '\n' ∉ d :: tail := fun hh => h (List.mem_cons_of_mem c hh)
    have ih := splitLines_noNL (d :: tail) h2 (by simp)
    rw [show splitLines (c :: d :: tail) = consLine c (splitLines (d :: tail)) from by
          simp [splitLines, hc],
        ih]
    simp [consLine]

theorem splitLines_flatten_of_lineList (ls : List (List Char)) (h : LineList ls) :
    splitLines ls.flatten = ls := by
  induction ls with
  | nil => rfl
  | cons l ls ih =>
    cases ls with
    | nil =>
      rcases h with ⟨m, hm, rfl⟩ | ⟨h1, h2⟩
      · simpa using splitLines_term_append m [] hm
      · simpa using splitLines_noNL l h1 h2
    | cons l2 ls2 =>
      obtain ⟨⟨m, hm, rfl⟩, h2⟩ := h
      have hj : ((m ++ ['\n']) :: l2 :: ls2).flatten = m ++ '\n' :: (l2 :: ls2).flatten := by
        simp
      rw [hj, splitLines_term_append m _ hm, ih h2]

theorem lineList_consLine (c : Char) (hc : c ≠ '\n') (ls : List (List Char))
    (h : LineList ls) : LineList (consLine c ls) := by
  have hnc : '\n' ≠ c := fun hh => hc hh.symm
  cases ls with
  | nil => exact Or.inr ⟨by simp [hnc], by simp⟩
  | cons l ls =>
    cases ls with
    | nil =>
      rcases h with ⟨m, hm, rfl⟩ | ⟨h1, h2⟩
      · exact Or.inl ⟨c :: m, by simp [hnc, hm], by simp [consLine]⟩
      · exact Or.inr ⟨by simp [hnc, h1, consLine], by simp [consLine]⟩
    | cons l2 ls2 =>
      obtain ⟨⟨m, hm, rfl⟩, h2⟩ := h
      exact ⟨⟨c :: m, by simp [hnc, hm], by simp [consLine]⟩, h2⟩

theorem lineList_splitLines (s : List Char) : LineList (splitLines s) := by
  induction s with
  | nil => trivial
  | cons c rest ih =>
    by_cases h : c = '\n'
    · subst h
      show LineList (splitLines ('\n' :: rest))
      rw [show splitLines ('\n' :: rest) = ['\n'] :: splitLines rest by simp [splitLines]]
      cases hr : splitLines rest with
      | nil => exact Or.inl ⟨[], by simp, rfl⟩
      | cons l ls =>
        rw [hr] at ih
        exact ⟨⟨[], by simp, rfl⟩, ih⟩
    · rw [show splitLines (c :: rest) = consLine c (splitLines rest) by simp [splitLines, h]]
      exact lineList_consLine c h _ ih

theorem lineList_ne_nil : ∀ ls, LineList ls → ∀ l ∈ ls, l ≠ []
  | [], _, l, hl => absurd hl (by simp)
  | [l0], h, l, hl => by
    rw [List.mem_singleton] at hl
    subst hl
    rcases h with ⟨m, _, rfl⟩ | ⟨_, h2⟩
    · simp
    · exact h2
  | l0 :: l2 :: ls, h, l, hl => by
    obtain ⟨⟨m, _, rfl⟩, h2⟩ := h
    rcases List.mem_cons.mp hl with rfl | hl2
    · simp
    · exact lineList_ne_nil (l2 :: ls) h2 l hl2

theorem lineList_dropLast_terminated :
    ∀ ls, LineList ls → ∀ l ∈ ls.dropLast, Terminated l
  | [], _, l, hl => absurd hl (by simp)
  | [l0], _, l, hl => absurd hl (by simp)
  | l0 :: l2 :: ls, h, l, hl => by
    obtain ⟨hT, h2⟩ := h
    rw [List.dropLast_cons₂, List.mem_cons] at hl
    rcases hl with rfl | hl2
    · exact hT
    · exact lineList_dropLast_terminated (l2 :: ls) h2 l hl2

/-! ## Lemmas about the transform -/

theorem noNL_selectMarker (n : Int) : '\n' ∉ selectMarker n := by
  unfold selectMarker
  split <;> decide

theorem transformText_eq (marker : List Char) (ls : List (List Char)) :
    transformText marker ls = (ls.map (transformLine marker)).flatten := by
  induction ls with
  | nil => rfl
  | cons l ls ih =>
    unfold transformText processLines
    unfold transformText at ih
    by_cases h : l.length = 1 <;> simp [h, transformLine, ih]

theorem terminated_transformLine (marker : List Char) (hm : '\n' ∉ marker)
    (l : List Char) (h : Terminated l) : Terminated (transformLine marker l) := by
  obtain ⟨m, hnm, rfl⟩ := h
  by_cases h1 : (m ++ ['\n']).length = 1
  · have hm0 : m = [] := by
      cases m with
      | nil => rfl
      | cons a b => simp at h1
    subst hm0
    exact ⟨marker, hm, by simp [transformLine]⟩
  · have h2 : m ≠ [] := by
      intro hm0
      exact h1 (by simp [hm0])
    refine ⟨marker ++ ' ' :: m, ?_, by simp [transformLine, h1, h2]⟩
    simp [List.mem_append, hm, hnm]

theorem noNL_transformLine (marker : List Char) (hm : '\n' ∉ marker)
    (l : List Char) (h1 : '\n' ∉ l) (h2 : l ≠ []) :
    '\n' ∉ transformLine marker l ∧ transformLine marker l ≠ [] := by
  unfold transformLine
  by_cases hl : l.length = 1 <;> simp [hl, hm, h1, h2]

theorem lineList_map_transformLine (marker : List Char) (hm : '\n' ∉ marker) :
    ∀ ls, LineList ls → LineList (ls.map (transformLine marker))
  | [], _ => trivial
  | [l], h => by
    rcases h with hT | ⟨h1, h2⟩
    · exact Or.inl (terminated_transformLine marker hm l hT)
    · exact Or.inr (noNL_transformLine marker hm l h1 h2)
  | l :: l2 :: ls, h => by
    obtain ⟨hT, h2⟩ := h
    exact ⟨terminated_transformLine marker hm l hT,
      lineList_map_transformLine marker hm (l2 :: ls) h2⟩

/-- Main correspondence: re-splitting the output blob recovers the per-line
transforms of the source lines, one for one and in order. -/
theorem splitLines_transformText (marker : List Char) (hm : '\n' ∉ marker)
    (s : List Char) :
    splitLines (transformText marker (splitLines s))
      = (splitLines s).map (transformLine marker) := by
  rw [transformText_eq]
  exact splitLines_flatten_of_lineList _
    (lineList_map_transformLine marker hm _ (lineList_splitLines s))

theorem echoedLines_eq_filter (marker : List Char) (ls : List (List Char)) :
    echoedLines marker ls = ls.filter (fun l => ! isEmptyLine l) := by
  induction ls with
  | nil => rfl
  | cons l ls ih =>
    unfold echoedLines processLines
    unfold echoedLines at ih
    by_cases h : l.length = 1 <;> simp [h, isEmptyLine, ih]

theorem stripLine_transformLine (marker l : List Char) (h : l ≠ []) :
    stripLine marker (transformLine marker l) = l := by
  unfold stripLine transformLine
  by_cases h1 : l.length = 1
  · obtain ⟨c, rfl⟩ : ∃ c, l = [c] := by
      cases l with
      | nil => simp at h1
      | cons a b =>
        cases b with
        | nil => exact ⟨a, rfl⟩
        | cons d e => simp at h1
    simp [List.drop_left]
  · obtain ⟨c, r, rfl⟩ : ∃ c r, l = c :: r := by
      cases l with
      | nil => exact absurd rfl h
      | cons a b => exact ⟨a, b, rfl⟩
    rw [if_neg h1]
    rw [show marker ++ ' ' :: c :: r = marker ++ (' ' :: c :: r) from rfl]
    simp [List.drop_left]

/-! ## Claim theorems -/

/-- Claim C1: for every line, the transform produces `marker ++ line` with no
inserted space when the line's raw length (terminator included) is exactly 1,
and `marker ++ " " ++ line` when the length differs from 1. -/
theorem claim1_emptyLineRule (marker l : List Char) :
    (l.length = 1 → transformLine marker l = marker ++ l) ∧
    (l.length ≠ 1 → transformLine marker l = marker ++ [' '] ++ l) := by
  constructor <;> intro h <;> simp [transformLine, h]

/-- Witness for C1 at a length-1 line and a length-3 line. -/
theorem claim1_emptyLineRule_witness :
    transformLine ['/', '/', '/'] ['\n'] = ['/', '/', '/'] ++ ['\n'] ∧
    transformLine ['/', '/', '/'] ['h', 'i', '\n']
      = ['/', '/', '/'] ++ [' '] ++ ['h', 'i', '\n'] :=
  ⟨(claim1_emptyLineRule ['/', '/', '/'] ['\n']).1 rfl,
   (claim1_emptyLineRule ['/', '/', '/'] ['h', 'i', '\n']).2 (by decide)⟩

/-- Claim C2: integer input `0` selects the marker `"///"` and every other
integer selects `"//!"`; `selectMarker` is total on the integers, so no
integer input is rejected. -/
theorem claim2_markerSelection :
    selectMarker 0 = ['/', '/', '/'] ∧
    ∀ n : Int, n ≠ 0 → selectMarker n = ['/', '/', '!'] := by
  refine ⟨rfl, fun n hn => ?_⟩
  simp [selectMarker, hn]

/-- Witness for C2 at the inputs 1, 2 and 5. -/
theorem claim2_markerSelection_witness :
    selectMarker 1 = ['/', '/', '!'] ∧ selectMarker 2 = ['/', '/', '!'] ∧
    selectMarker 5 = ['/', '/', '!'] :=
  ⟨claim2_markerSelection.2 1 (by decide), claim2_markerSelection.2 2 (by decide),
   claim2_markerSelection.2 5 (by decide)⟩

/-- Claim C3: for every input text, the transformed output splits into exactly
as many lines as the input, and line for line they are the per-line transforms
of the source lines in the original order — nothing is reordered, filtered or
merged. -/
theorem claim3_lineCountPreserved (n : Int) (s : List Char) :
    splitLines (transformText (selectMarker n) (splitLines s))
      = (splitLines s).map (transformLine (selectMarker n)) ∧
    (splitLines (transformText (selectMarker n) (splitLines s))).length
      = (splitLines s).length := by
  have h := splitLines_transformText (selectMarker n) (noNL_selectMarker n) s
  exact ⟨h, by rw [h, List.length_map]⟩

/-- Counterexample to C4 as stated: on the one-line text `" "` (a single
space, raw length 1, classified EMPTY) the output line is `"/// "`, and
greedily stripping the marker and the single following space yields the empty
string, not the source line `" "`. -/
theorem claim4_roundTrip_cex :
    splitLines [' '] = [[' ']] ∧
    splitLines (transformText (selectMarker 0) (splitLines [' ']))
      = [['/', '/', '/', ' ']] ∧
    stripGreedy (selectMarker 0) ['/', '/', '/', ' '] = [] ∧
    ([] : List Char) ≠ [' '] := by
  refine ⟨?_, ?_, ?_, ?_⟩ <;> decide

/-- Claim C4 (amended): stripping the marker, and the single following space
only when at least one character follows it, recovers every source line
exactly — for every input text and every line index. -/
theorem claim4_roundTrip (n : Int) (s : List Char) (i : Nat)
    (h : i < (splitLines s).length) :
    stripLine (selectMarker n)
      ((splitLines (transformText (selectMarker n) (splitLines s))).getD i [])
      = (splitLines s).getD i [] := by
  rw [splitLines_transformText (selectMarker n) (noNL_selectMarker n) s]
  have hlen : i < ((splitLines s).map (transformLine (selectMarker n))).length := by
    simpa using h
  rw [List.getD_eq_getElem _ _ hlen, List.getD_eq_getElem _ _ h, List.getElem_map]
  exact stripLine_transformLine _ _
    (lineList_ne_nil _ (lineList_splitLines s) _ (List.getElem_mem h))

/-- Witness for C4 on the text `"hi\n "` (a terminated line then a final line
that is a single space) at index 1. -/
theorem claim4_roundTrip_witness :
    stripLine (selectMarker 0)
      ((splitLines (transformText (selectMarker 0)
        (splitLines ['h', 'i', '\n', ' ']))).getD 1 [])
      = (splitLines ['h', 'i', '\n', ' ']).getD 1 [] :=
  claim4_roundTrip 0 ['h', 'i', '\n', ' '] 1 (by decide)

/-- Claim C5: the write step replaces the file content with exactly the
computed blob whatever the prior content was (create-or-truncate, never
appending), and reading the file back yields that blob byte for byte. -/
theorem claim5_writeTruncate (n : Int) (prior text : List Char) :
    run (some n) (some text)
      = (some (transformText (selectMarker n) (splitLines text)), .ok ()) ∧
    writeF (some prior) (transformText (selectMarker n) (splitLines text))
      = some (transformText (selectMarker n) (splitLines text)) ∧
    readF (writeF (some prior) (transformText (selectMarker n) (splitLines text)))
      = some (transformText (selectMarker n) (splitLines text)) :=
  ⟨rfl, rfl, rfl⟩

/-- Claim C6: when the target file is missing at read time the run fails with
a file-access error, no write happens, and the file system is unchanged — in
particular no partial or empty output file is created. -/
theorem claim6_missingFile (n : Int) :
    run (some n) none = (none, .error .fileAccess) :=
  rfl

/-- Counterexample to C7 as stated: the text consisting of one EMPTY line
(just a terminator) is transformed, yet nothing is echoed — the `print` sits
only in the non-EMPTY branch of the loop. -/
theorem claim7_echo_cex :
    splitLines ['\n'] = [['\n']] ∧
    isEmptyLine ['\n'] = true ∧
    echoedLines (selectMarker 0) (splitLines ['\n']) = [] := by
  refine ⟨?_, ?_, ?_⟩ <;> decide

/-- Claim C7 (amended): during transformation the program echoes exactly the
source lines of raw length different from 1 (the non-EMPTY lines), in order;
EMPTY lines are not echoed. -/
theorem claim7_echoNonEmptyOnly (marker s : List Char) :
    echoedLines marker (splitLines s)
      = (splitLines s).filter (fun l => ! isEmptyLine l) :=
  echoedLines_eq_filter marker (splitLines s)

/-- Counterexample to C8 as stated: the unterminated final line `"a"` has raw
length 1, so the code classifies it EMPTY and emits `"///a"` with no space,
although it consists of a single non-terminator character. -/
theorem claim8_emptyClass_cex :
    splitLines ['a'] = [['a']] ∧
    isEmptyLine ['a'] = true ∧
    ('a' : Char) ≠ '\n' ∧
    transformText (selectMarker 0) (splitLines ['a']) = ['/', '/', '/', 'a'] := by
  refine ⟨?_, ?_, ?_, ?_⟩ <;> decide

/-- Claim C8 (amended): every line classified EMPTY that is not the final line
of the input consists of the line terminator alone; only the final line can be
a single non-terminator character and still be classified EMPTY. -/
theorem claim8_emptyClassNonFinal (s l : List Char)
    (h1 : l ∈ (splitLines s).dropLast) (h2 : isEmptyLine l = true) :
    l = ['\n'] := by
  obtain ⟨m, hm, rfl⟩ :=
    lineList_dropLast_terminated _ (lineList_splitLines s) l h1
  have hlen : (m ++ ['\n']).length = 1 := by
    simpa [isEmptyLine] using h2
  have hm0 : m = [] := by
    cases m with
    | nil => rfl
    | cons a b => simp at hlen
  subst hm0
  rfl

/-- Witness for C8 (amended) on the text `"\nx\n"`, whose first line is EMPTY
and not final. -/
theorem claim8_emptyClassNonFinal_witness :
    (['\n'] : List Char) = ['\n'] :=
  claim8_emptyClassNonFinal ['\n', 'x', '\n'] ['\n'] (by decide) (by decide)

/-- Claim C9: non-integer text at the marker-choice prompt terminates the run
fatally before any file access — the file system is returned untouched and no
read or write is performed. -/
theorem claim9_invalidChoice (fs : Option (List Char)) :
    run none fs = (fs, .error .invalidChoice) :=
  rfl

/-- Claim C10: on an empty target file the transform produces the empty
string — no marker is emitted — and the run completes, rewriting the file as
empty. -/
theorem claim10_emptyFile (n : Int) :
    transformText (selectMarker n) (splitLines []) = [] ∧
    run (some n) (some []) = (some [], .ok ()) :=
  ⟨rfl, rfl⟩

end Docstring
